import Mathlib

set_option maxRecDepth 8000

/-!
Shallow embedding of the azuqua.js client library (src/azuqua.js): the request
signer (`signData`), the request builder (`makeRequest`), the alias cache and
its lookup (`getAlias`), the flo-list refresh (`flosCall`) and the invoke
orchestration (`invoke`), together with theorems settling the specification
claims. JavaScript values are modelled by `JsVal`, the HTTP transport and the
JSON parser are black-box function parameters, and HMAC-SHA256 is implemented
concretely over byte lists.
-/

namespace Azuqua

/-- A JavaScript value as it flows through this library: JSON data plus the
`undefined` value. Objects are insertion-ordered association lists, which is
how JS objects behave for string keys. Strict equality `===` is modelled
structurally; the two coincide on all values this library actually compares
(strings, and values read back out of the very map being scanned). -/
inductive JsVal where
  | null
  | undef
  | bool (b : Bool)
  | num (n : Int)
  | str (s : String)
  | arr (elems : List JsVal)
  | obj (fields : List (String × JsVal))

/-- JS truthiness of a value (`if (v)`): `null`, `undefined`, `false`, `0`
and `""` are falsy; every object and array is truthy. -/
def jsTruthy : JsVal → Bool
  | .null => false
  | .undef => false
  | .bool b => b
  | .num n => n ≠ 0
  | .str s => s ≠ ""
  | .arr _ => true
  | .obj _ => true

/-- JS truthiness of a possibly-undefined value (`none` models `undefined`). -/
def jsTruthyO : Option JsVal → Bool
  | none => false
  | some v => jsTruthy v

mutual

/-- Structural equality on `JsVal`, modelling JS `===` as used in `getAlias`. -/
def JsVal.beq : JsVal → JsVal → Bool
  | .null, .null => true
  | .undef, .undef => true
  | .bool a, .bool b => a == b
  | .num a, .num b => a == b
  | .str a, .str b => a == b
  | .arr a, .arr b => JsVal.beqList a b
  | .obj a, .obj b => JsVal.beqFields a b
  | _, _ => false

def JsVal.beqList : List JsVal → List JsVal → Bool
  | [], [] => true
  | x :: xs, y :: ys => JsVal.beq x y && JsVal.beqList xs ys
  | _, _ => false

def JsVal.beqFields : List (String × JsVal) → List (String × JsVal) → Bool
  | [], [] => true
  | (k1, v1) :: xs, (k2, v2) :: ys => k1 == k2 && JsVal.beq v1 v2 && JsVal.beqFields xs ys
  | _, _ => false

end

mutual

/-- JS string coercion `String(v)`, as applied by property-key lookup,
`encodeURIComponent` and `path.replace`. -/
def jsToString : JsVal → String
  | .null => "null"
  | .undef => "undefined"
  | .bool b => if b then "true" else "false"
  | .num n => toString n
  | .str s => s
  | .arr l => jsArrJoin l
  | .obj _ => "[object Object]"

/-- `Array.prototype.join(",")` under `String(...)`: `null` and `undefined`
elements render as the empty string. -/
def jsArrJoin : List JsVal → String
  | [] => ""
  | [x] =>
    match x with
    | .null => ""
    | .undef => ""
    | v => jsToString v
  | x :: xs =>
    (match x with
     | .null => ""
     | .undef => ""
     | v => jsToString v) ++ "," ++ jsArrJoin xs

end

/-- JS `String.prototype.toLowerCase()` (ASCII range, which covers the verbs
this library lowercases). -/
def jsToLowerCase (s : String) : String := ⟨s.data.map Char.toLower⟩

/-- JS `path.indexOf(c) > -1`: whether the character occurs in the string. -/
def hasChar (s : String) (c : Char) : Bool := s.data.any (fun x => x = c)

/-- Hex digit in lowercase, as produced by `digest("hex")` and `JSON.stringify`
escapes. -/
def hexLower (n : Nat) : Char := if n < 10 then Char.ofNat (48 + n) else Char.ofNat (87 + n)

/-- Hex digit in uppercase, as produced by `encodeURIComponent`. -/
def hexUpper (n : Nat) : Char := if n < 10 then Char.ofNat (48 + n) else Char.ofNat (55 + n)

/-- JSON string-character escaping as performed by `JSON.stringify`. -/
def jsonEscapeChar (c : Char) : List Char :=
  if c = Char.ofNat 34 then [Char.ofNat 92, Char.ofNat 34]
  else if c = Char.ofNat 92 then [Char.ofNat 92, Char.ofNat 92]
  else if c = Char.ofNat 8 then [Char.ofNat 92, 'b']
  else if c = Char.ofNat 9 then [Char.ofNat 92, 't']
  else if c = Char.ofNat 10 then [Char.ofNat 92, 'n']
  else if c = Char.ofNat 12 then [Char.ofNat 92, 'f']
  else if c = Char.ofNat 13 then [Char.ofNat 92, 'r']
  else if c.toNat < 32 then
    [Char.ofNat 92, 'u', '0', '0', hexLower (c.toNat / 16), hexLower (c.toNat % 16)]
  else [c]

/-- Quote and escape a string as a JSON string literal. -/
def jsonQuote (s : String) : String :=
  ⟨Char.ofNat 34 :: s.data.foldr (fun c acc => jsonEscapeChar c ++ acc) [Char.ofNat 34]⟩

mutual

/-- `JSON.stringify` on a JS value. A bare `undefined` inside an array renders
as `null`; `undefined`-valued object fields are omitted (see `fieldStrings`). -/
def JsVal.stringify : JsVal → String
  | .null => "null"
  | .undef => "null"
  | .bool b => if b then "true" else "false"
  | .num n => toString n
  | .str s => jsonQuote s
  | .arr l => "[" ++ String.intercalate "," (JsVal.elemStrings l) ++ "]"
  | .obj fs => "\x7b" ++ String.intercalate "," (JsVal.fieldStrings fs) ++ "\x7d"

def JsVal.elemStrings : List JsVal → List String
  | [] => []
  | x :: xs => JsVal.stringify x :: JsVal.elemStrings xs

def JsVal.fieldStrings : List (String × JsVal) → List String
  | [] => []
  | (k, v) :: xs =>
    match v with
    | .undef => JsVal.fieldStrings xs
    | w => (jsonQuote k ++ ":" ++ JsVal.stringify w) :: JsVal.fieldStrings xs

end

/-- UTF-8 encoding of a single character, as a list of byte values. -/
def utf8Bytes (c : Char) : List Nat :=
  let n := c.toNat
  if n < 128 then [n]
  else if n < 2048 then [192 ||| (n >>> 6), 128 ||| (n &&& 63)]
  else if n < 65536 then [224 ||| (n >>> 12), 128 ||| ((n >>> 6) &&& 63), 128 ||| (n &&& 63)]
  else [240 ||| (n >>> 18), 128 ||| ((n >>> 12) &&& 63), 128 ||| ((n >>> 6) &&& 63),
        128 ||| (n &&& 63)]

/-- UTF-8 bytes of a string; `Buffer.byteLength(s)` is the length of this list. -/
def strBytes (s : String) : List Nat := s.data.foldr (fun c acc => utf8Bytes c ++ acc) []

/-! ### SHA-256 and HMAC (the `crypto.createHmac("sha256", key)` primitive) -/

/-- Truncation to a 32-bit word. -/
def w32 (n : Nat) : Nat := n % 4294967296

/-- Right rotation of a 32-bit word. -/
def rotr32 (r x : Nat) : Nat := w32 ((x >>> r) ||| (x <<< (32 - r)))

def sha256Ch (x y z : Nat) : Nat := (x &&& y) ^^^ ((x ^^^ 4294967295) &&& z)

def sha256Maj (x y z : Nat) : Nat := (x &&& y) ^^^ (x &&& z) ^^^ (y &&& z)

def sha256S0 (x : Nat) : Nat := rotr32 2 x ^^^ rotr32 13 x ^^^ rotr32 22 x

def sha256S1 (x : Nat) : Nat := rotr32 6 x ^^^ rotr32 11 x ^^^ rotr32 25 x

def sha256s0 (x : Nat) : Nat := rotr32 7 x ^^^ rotr32 18 x ^^^ (x >>> 3)

def sha256s1 (x : Nat) : Nat := rotr32 17 x ^^^ rotr32 19 x ^^^ (x >>> 10)

/-- The 64 SHA-256 round constants (FIPS 180-4, written in decimal). -/
def sha256K : List Nat :=
  [ 1116352408, 1899447441, 3049323471, 3921009573, 961987163, 1508970993, 2453635748, 2870763221,
    3624381080, 310598401, 607225278, 1426881987, 1925078388, 2162078206, 2614888103, 3248222580,
    3835390401, 4022224774, 264347078, 604807628, 770255983, 1249150122, 1555081692, 1996064986,
    2554220882, 2821834349, 2952996808, 3210313671, 3336571891, 3584528711, 113926993, 338241895,
    666307205, 773529912, 1294757372, 1396182291, 1695183700, 1986661051, 2177026350, 2456956037,
    2730485921, 2820302411, 3259730800, 3345764771, 3516065817, 3600352804, 4094571909, 275423344,
    430227734, 506948616, 659060556, 883997877, 958139571, 1322822218, 1537002063, 1747873779,
    1955562222, 2024104815, 2227730452, 2361852424, 2428436474, 2756734187, 3204031479,
    3329325298]

/-- The SHA-256 initial hash state (FIPS 180-4, written in decimal). -/
def sha256H0 : List Nat :=
  [ 1779033703, 3144134277, 1013904242, 2773480762, 1359893119, 2600822924, 528734635, 1541459225]

/-- Big-endian byte decomposition of `v` into `n` bytes. -/
def beBytes (n v : Nat) : List Nat :=
  (List.range n).map (fun i => (v >>> (8 * (n - 1 - i))) % 256)

/-- SHA-256 message padding: `0x80`, zeros, then the 64-bit big-endian bit length. -/
def sha256Pad (msg : List Nat) : List Nat :=
  msg ++ 0x80 :: List.replicate ((64 - ((msg.length + 9) % 64)) % 64) 0
      ++ beBytes 8 (8 * msg.length)

/-- Group bytes four at a time into big-endian 32-bit words. -/
def bytesToWords : List Nat → List Nat
  | b0 :: b1 :: b2 :: b3 :: rest => (((b0 * 256 + b1) * 256 + b2) * 256 + b3) :: bytesToWords rest
  | _ => []

/-- One step of message-schedule extension, on the reversed schedule so far. -/
def scheduleStep (acc : List Nat) : List Nat :=
  w32 (sha256s1 (acc.getD 1 0) + acc.getD 6 0 + sha256s0 (acc.getD 14 0) + acc.getD 15 0) :: acc

/-- One round of SHA-256 compression on the state `[a,b,c,d,e,f,g,h]`;
`wk` is the pair of schedule word and round constant. -/
def compressStep (st : List Nat) (wk : Nat × Nat) : List Nat :=
  match st with
  | [a, b, c, d, e, f, g, h] =>
    let t1 := w32 (h + sha256S1 e + sha256Ch e f g + wk.2 + wk.1)
    let t2 := w32 (sha256S0 a + sha256Maj a b c)
    [w32 (t1 + t2), a, b, c, w32 (d + t1), e, f, g]
  | other => other

/-- Process one 64-byte block into the running hash state. -/
def processBlock (hs : List Nat) (block : List Nat) : List Nat :=
  let sched := (Nat.repeat scheduleStep 48 (bytesToWords block).reverse).reverse
  let st := (sched.zip sha256K).foldl compressStep hs
  (hs.zip st).map (fun p => w32 (p.1 + p.2))

/-- Split a byte list into 64-byte chunks. -/
def chunk64 (l : List Nat) : List (List Nat) :=
  match l with
  | [] => []
  | b :: rest => (b :: rest).take 64 :: chunk64 (rest.drop 63)
termination_by l.length
decreasing_by simp [List.length_drop]; omega

/-- SHA-256 of a byte list. -/
def sha256Bytes (msg : List Nat) : List Nat :=
  (((chunk64 (sha256Pad msg)).foldl processBlock sha256H0).map (beBytes 4)).flatten

/-- HMAC-SHA256 of a message under a key, both byte lists. -/
def hmacSha256 (key msg : List Nat) : List Nat :=
  let k0 := if 64 < key.length then sha256Bytes key else key
  let kp := k0 ++ List.replicate (64 - k0.length) 0
  sha256Bytes ((kp.map (fun b => b ^^^ 0x5c)) ++ sha256Bytes ((kp.map (fun b => b ^^^ 0x36)) ++ msg))

/-- Lowercase hex rendering of a byte list (`digest("hex")`). -/
def bytesToHex (bs : List Nat) : String :=
  ⟨bs.foldr (fun b acc => hexLower (b / 16) :: hexLower (b % 16) :: acc) []⟩

/-- `crypto.createHmac("sha256", key).update(msg).digest("hex")` on strings. -/
def hmacSha256Hex (key msg : String) : String :=
  bytesToHex (hmacSha256 (strBytes key) (strBytes msg))

/-! ### The library's helper functions -/

/-- The `data` argument of `signData` as it can actually arrive there:
absent (`undefined`/`null`), a string, or an object. -/
inductive BodyVal where
  | vnull
  | vstr (s : String)
  | vobj (fields : List (String × JsVal))

/-- Body serialization inside `signData`: falsy data (absent or the empty
string) becomes `""`, an object becomes its `JSON.stringify` text, and any
other string is used as-is. -/
def serializeBody : BodyVal → String
  | .vnull => ""
  | .vstr s => s
  | .vobj fs => JsVal.stringify (.obj fs)

/-- `signData(accessSecret, data, verb, path, timestamp)` from src/azuqua.js:
HMAC-SHA256 keyed by the secret over
`[verb.toLowerCase(), path, timestamp].join(":")` followed by the serialized
data, hex-encoded. -/
def signData (accessSecret : String) (data : BodyVal) (verb p timestamp : String) : String :=
  hmacSha256Hex accessSecret
    (String.intercalate ":" [jsToLowerCase verb, p, timestamp] ++ serializeBody data)

/-- Characters `encodeURIComponent` leaves unencoded. -/
def uriUnreserved (c : Char) : Bool :=
  c.isAlpha || c.isDigit || c = '-' || c = '_' || c = '.' || c = '!' || c = '~' || c = '*' ||
    c = Char.ofNat 39 || c = '(' || c = ')'

/-- JS `encodeURIComponent`: unreserved characters kept, every other
character percent-encoded byte-wise in uppercase hex. -/
def encodeURIComponent (s : String) : String :=
  ⟨s.data.foldr
    (fun c acc =>
      if uriUnreserved c then c :: acc
      else (utf8Bytes c).foldr (fun b acc2 => '%' :: hexUpper (b / 16) :: hexUpper (b % 16) :: acc2)
        acc)
    []⟩

/-- `addGetParameter(path, key, value)` from src/azuqua.js. -/
def addGetParameter (p key value : String) : String :=
  p ++ (if hasChar p '?' then "&" else "?") ++ encodeURIComponent key ++ "=" ++
    encodeURIComponent value

/-- Replace the first occurrence of `pat` in a character list (JS
`String.prototype.replace` with a string pattern replaces only the first). -/
def replaceFirstChars (pat rep : List Char) : List Char → List Char
  | [] => []
  | c :: rest =>
    if pat.isPrefixOf (c :: rest) then rep ++ (c :: rest).drop pat.length
    else c :: replaceFirstChars pat rep rest

/-- JS `s.replace(pat, rep)` for a string pattern: first occurrence only. -/
def replaceFirst (s pat rep : String) : String := ⟨replaceFirstChars pat.data rep.data s.data⟩

/-- JS object property read `o[k]` on an insertion-ordered field list. -/
def objGet : List (String × JsVal) → String → Option JsVal
  | [], _ => none
  | kv :: rest, k => if kv.1 = k then some kv.2 else objGet rest k

/-- JS object property write `o[k] = v`: overwrite in place, else append. -/
def objSet : List (String × JsVal) → String → JsVal → List (String × JsVal)
  | [], k, v => [(k, v)]
  | kv :: rest, k, v => if kv.1 = k then (k, v) :: rest else kv :: objSet rest k v

/-- The `_.find(map, function(v){ return v === str; })` scan in `getAlias`.
`===` guarantees the found value is indistinguishable from the probe, so the
probe itself is returned when a structurally equal value occurs. -/
def findValue (m : List (String × JsVal)) (v : JsVal) : Option JsVal :=
  match m with
  | [] => none
  | kv :: rest => if JsVal.beq kv.2 v then some v else findValue rest v

/-- `getAlias(map, str)` from src/azuqua.js: `map[str] || _.find(map, v => v === str)`.
A falsy direct hit falls through to the value scan because of `||`. -/
def getAlias (map : List (String × JsVal)) (str : JsVal) : Option JsVal :=
  match objGet map (jsToString str) with
  | some v => if jsTruthy v then some v else findValue map str
  | none => findValue map str

/-! ### Routes, client state and the request builder -/

inductive Method where
  | GET
  | POST
deriving DecidableEq

def Method.str : Method → String
  | .GET => "GET"
  | .POST => "POST"

structure Route where
  path : String
  method : Method

/-- The `routes.invoke` template of src/azuqua.js. -/
def routesInvoke : Route := ⟨"/flo/:id/invoke", .POST⟩

/-- The `routes.flos` template of src/azuqua.js. -/
def routesFlos : Route := ⟨"/account/flos", .GET⟩

/-- `self.account`: either credential may be missing. -/
structure Account where
  accessKey : Option String
  accessSecret : Option String

/-- JS truthiness of a possibly-missing credential string. -/
def truthyOpt : Option String → Bool
  | none => false
  | some s => s ≠ ""

/-- Client state: the account and the flo-name-to-alias cache (`self.floMap`,
`none` until first populated). -/
structure Client where
  account : Account
  floMap : Option (List (String × JsVal))

/-- The fully built request descriptor handed to the transport. -/
structure BuiltRequest where
  host : String
  port : Nat
  method : Method
  path : String
  contentType : String
  xApiTimestamp : String
  xApiHash : String
  xApiAccessKey : String
  contentLength : Option Nat
  body : BodyVal

/-- Error values a completion callback can receive: an `Error` object with a
message, or a bare (non-`Error`) string value. -/
inductive ErrVal where
  | errorObj (msg : String)
  | strVal (s : String)

/-- Result delivered to a completion callback. -/
inductive CallbackResult where
  | err (e : ErrVal)
  | ok (body : JsVal)

/-- The black-box HTTP transport: a response body string or an error,
propagated verbatim. -/
def Transport : Type := BuiltRequest → Except ErrVal String

/-- The black-box `JSON.parse`: `none` when the text is not valid JSON. -/
def JsonParse : Type := String → Option JsVal

/-- `params` nullification in `makeRequest`: absent or empty becomes `""`. -/
def nullifyParams : Option (List (String × JsVal)) → BodyVal
  | none => .vstr ""
  | some o => if o.length < 1 then .vstr "" else .vobj o

/-- The GET query-append loop. Underscore's `_.each` hands `(value, key)` to
its iteratee, while the source callback names its parameters `(key, value)`:
the stored value therefore lands in `addGetParameter`'s key position and the
key in its value position. -/
def appendQuery (fields : List (String × JsVal)) (p : String) : String :=
  fields.foldl (fun acc kv => addGetParameter acc (jsToString kv.2) kv.1) p

/-- `JSON.stringify` applied to the (already nullified) `params` variable. -/
def jsonStringifyVal : BodyVal → String
  | .vnull => "null"
  | .vstr s => JsVal.stringify (.str s)
  | .vobj fs => JsVal.stringify (.obj fs)

/-- The `resp.body.error` property read on a parsed response. -/
def respError : JsVal → Option JsVal
  | .obj fs => objGet fs "error"
  | _ => none

/-- Outcome of `makeRequest`: the request given to the transport (if any) and
the value delivered to the callback. -/
structure MRes where
  sent : Option BuiltRequest
  result : CallbackResult

/-- `self.makeRequest(options, params, callback)` from src/azuqua.js. Checks
credentials, nullifies empty params, signs over the pre-query-append path,
appends GET query parameters, serializes POST bodies, sends, then parses the
response (an unparseable body is passed back raw as the error value; a parsed
body with a truthy `error` field becomes an `Error`). -/
def makeRequest (acc : Account) (options : Route) (params : Option (List (String × JsVal)))
    (timestamp : String) (transport : Transport) (parseJson : JsonParse) : MRes :=
  if !(truthyOpt acc.accessKey && truthyOpt acc.accessSecret) then
    ⟨none, .err (.errorObj "Account information not found")⟩
  else
    let pv := nullifyParams params
    let hash := signData (acc.accessSecret.getD "") pv options.method.str options.path timestamp
    let finalPath :=
      match options.method, pv with
      | .GET, .vobj fields => appendQuery fields options.path
      | _, _ => options.path
    let wireBody : BodyVal :=
      match options.method with
      | .GET => pv
      | .POST => .vstr (jsonStringifyVal pv)
    let req : BuiltRequest :=
      { host := "api.azuqua.com", port := 443,
        method := options.method, path := finalPath,
        contentType := "application/json",
        xApiTimestamp := timestamp, xApiHash := hash,
        xApiAccessKey := acc.accessKey.getD "",
        contentLength :=
          (match options.method, wireBody with
           | .POST, .vstr s => some (strBytes s).length
           | _, _ => none),
        body := wireBody }
    let result : CallbackResult :=
      match transport req with
      | .error e => .err e
      | .ok raw =>
        match parseJson raw with
        | none => .err (.strVal raw)
        | some j =>
          match respError j with
          | some e => if jsTruthy e then .err (.errorObj (jsToString e)) else .ok j
          | none => .ok j
    ⟨some req, result⟩

/-! ### The flos cache refresh and invoke -/

/-- Property read `flo[k]` on a response element (`undefined` off objects). -/
def getFieldJs (v : JsVal) (k : String) : Option JsVal :=
  match v with
  | .obj fs => objGet fs k
  | _ => none

/-- One iteration of the `async.each` loop in `flos`: push the name when the
map does not yet hold a truthy alias for it, then store the alias. -/
def floStep (acc : List (String × JsVal) × List JsVal) (flo : JsVal) :
    List (String × JsVal) × List JsVal :=
  let nameV := (getFieldJs flo "name").getD .undef
  let aliasV := (getFieldJs flo "alias").getD .undef
  let key := jsToString nameV
  let shouldPush :=
    match objGet acc.1 key with
    | none => true
    | some v => !jsTruthy v
  (objSet acc.1 key aliasV, if shouldPush then acc.2 ++ [nameV] else acc.2)

/-- Outcome of `flos`: new client state, callback value, and the request (if
any) given to the transport. -/
structure FlosOutcome where
  client : Client
  result : Except ErrVal (List JsVal)
  sent : Option BuiltRequest

/-- `Azuqua.prototype.flos(refresh, callback)` from src/azuqua.js: serve
`Object.keys(floMap)` when the cache exists and no refresh is forced,
otherwise fetch `/account/flos`, rebuild the map wholesale and return the
names. -/
def flosCall (c : Client) (refresh : Bool) (timestamp : String) (transport : Transport)
    (parseJson : JsonParse) : FlosOutcome :=
  match c.floMap, refresh with
  | some m, false => ⟨c, .ok (m.map (fun kv => JsVal.str kv.1)), none⟩
  | _, _ =>
    let mr := makeRequest c.account routesFlos none timestamp transport parseJson
    match mr.result with
    | .err e => ⟨c, .error e, mr.sent⟩
    | .ok body =>
      let elems := match body with | .arr l => l | _ => []
      let fm := elems.foldl floStep ([], [])
      ⟨{ c with floMap := some fm.1 }, .ok fm.2, mr.sent⟩

/-- Outcome of `invoke`: new client state, callback value, every request given
to the transport in order, the number of cache-refresh attempts, and the alias
substituted into the invoke route (when a dispatch happened). -/
structure InvokeOutcome where
  client : Client
  result : CallbackResult
  requests : List BuiltRequest
  refreshes : Nat
  aliasUsed : Option String

/-- `Azuqua.prototype.invoke(flo, data, force, callback)` from src/azuqua.js.
The first argument is recursion fuel: the JS code re-enters `invoke` after a
successful refresh, which the fuel bounds (fuel 2 is proved sufficient). -/
def invoke : Nat → Client → JsVal → Option (List (String × JsVal)) → Bool → String →
    Transport → JsonParse → InvokeOutcome
  | 0, c, _, _, _, _, _, _ => ⟨c, .err (.errorObj "recursion fuel exhausted"), [], 0, none⟩
  | fuel + 1, c, flo, data, force, timestamp, transport, parseJson =>
    let a0 := getAlias (c.floMap.getD []) flo
    let aliasV := if !jsTruthyO a0 && force then some flo else a0
    if jsTruthyO aliasV then
      let aliasStr := jsToString (aliasV.getD .null)
      let options : Route := ⟨replaceFirst routesInvoke.path ":id" aliasStr, routesInvoke.method⟩
      let mr := makeRequest c.account options data timestamp transport parseJson
      ⟨c, mr.result, mr.sent.toList, 0, some aliasStr⟩
    else
      let f := flosCall c true timestamp transport parseJson
      match f.result with
      | .error e => ⟨f.client, .err e, f.sent.toList, 1, none⟩
      | .ok _ =>
        let a1 := getAlias (f.client.floMap.getD []) flo
        if jsTruthyO a1 then
          let inner := invoke fuel f.client (a1.getD .null) data false timestamp transport parseJson
          ⟨inner.client, inner.result, f.sent.toList ++ inner.requests, 1 + inner.refreshes,
            inner.aliasUsed⟩
        else
          ⟨f.client, .err (.errorObj "Flo not found"), f.sent.toList, 1, none⟩

/-! ### Definitions following the specification's words (for refinement claims) -/

/-- Body serialization exactly as the spec words it: empty string when the
body is absent, its JSON text when it is an object. -/
def specSerializeBody : Option (List (String × JsVal)) → String
  | none => ""
  | some o => JsVal.stringify (.obj o)

/-- The signed message exactly as the spec words it:
`lowercase(verb) + ":" + path + ":" + timestamp` followed directly by the
serialized body. -/
def specSignerMessage (verb p timestamp : String) (body : Option (List (String × JsVal))) :
    String :=
  jsToLowerCase verb ++ ":" ++ p ++ ":" ++ timestamp ++ specSerializeBody body

/-- Coercion of an absent-or-object body into `signData`'s argument type. -/
def bodyValOf : Option (List (String × JsVal)) → BodyVal
  | none => .vnull
  | some o => .vobj o

/-- The amended C8 lookup contract: an exact key hit is returned only when its
alias is JS-truthy; otherwise the probe string is returned when some stored
value strictly equals it; otherwise absent. -/
def lookupAmended (m : List (String × JsVal)) (s : String) : Option JsVal :=
  let scan := if m.any (fun kv => JsVal.beq kv.2 (.str s)) then some (JsVal.str s) else none
  match objGet m s with
  | some v => if jsTruthy v then some v else scan
  | none => scan

/-- A transport that always fails (used for concrete instances). -/
def trFail : Transport := fun _ => .error (.errorObj "network down")

/-- A transport that always returns the body `[]` (an empty flo list). -/
def trEmptyList : Transport := fun _ => .ok "[]"

/-- A parser that accepts only the text `[]`, as the empty JSON array. -/
def paEmptyArr : JsonParse := fun s => if s = "[]" then some (.arr []) else none

/-- A parser that rejects every body. -/
def paNone : JsonParse := fun _ => none

/-! ### Helper lemmas -/

/-- Unfolding of `String.intercalate` on the three-element metadata list. -/
theorem intercalate3 (a b c : String) :
    String.intercalate ":" [a, b, c] = a ++ ":" ++ b ++ ":" ++ c := by
  simp [String.intercalate, String.intercalate.go, String.append_assoc]

mutual

theorem JsVal.beq_refl : ∀ a : JsVal, JsVal.beq a a = true
  | .null => by simp [JsVal.beq]
  | .undef => by simp [JsVal.beq]
  | .bool b => by simp [JsVal.beq]
  | .num n => by simp [JsVal.beq]
  | .str s => by simp [JsVal.beq]
  | .arr l => by simp [JsVal.beq, JsVal.beqList_refl l]
  | .obj fs => by simp [JsVal.beq, JsVal.beqFields_refl fs]

theorem JsVal.beqList_refl : ∀ l : List JsVal, JsVal.beqList l l = true
  | [] => by simp [JsVal.beqList]
  | x :: xs => by simp [JsVal.beqList, JsVal.beq_refl x, JsVal.beqList_refl xs]

theorem JsVal.beqFields_refl : ∀ l : List (String × JsVal), JsVal.beqFields l l = true
  | [] => by simp [JsVal.beqFields]
  | (k, v) :: xs => by simp [JsVal.beqFields, JsVal.beq_refl v, JsVal.beqFields_refl xs]

end

/-- The value scan is equivalent to an `any` test returning the probe. -/
theorem findValue_scan (m : List (String × JsVal)) (v : JsVal) :
    findValue m v = if m.any (fun kv => JsVal.beq kv.2 v) then some v else none := by
  induction m with
  | nil => rfl
  | cons kv rest ih =>
    simp only [findValue, List.any_cons, ih]
    by_cases hb : JsVal.beq kv.2 v = true
    · rw [if_pos hb]
      have h2 : (JsVal.beq kv.2 v || rest.any fun kv => JsVal.beq kv.2 v) = true := by
        rw [hb]; simp
      rw [if_pos h2]
    · rw [if_neg hb]
      have hb' : JsVal.beq kv.2 v = false := by rwa [Bool.not_eq_true] at hb
      have h2 : (JsVal.beq kv.2 v || rest.any fun kv => JsVal.beq kv.2 v)
          = (rest.any fun kv => JsVal.beq kv.2 v) := by rw [hb']; simp
      simp only [h2]

/-- `getAlias` with its scan rewritten to an `any` test. -/
theorem getAlias_eq (m : List (String × JsVal)) (s : JsVal) :
    getAlias m s =
      match objGet m (jsToString s) with
      | some v =>
        if jsTruthy v then some v
        else if m.any (fun kv => JsVal.beq kv.2 s) then some s else none
      | none => if m.any (fun kv => JsVal.beq kv.2 s) then some s else none := by
  unfold getAlias
  cases hog : objGet m (jsToString s) <;> simp [findValue_scan]

/-- A direct object hit is a value of the map. -/
theorem objGet_mem (m : List (String × JsVal)) (k : String) (v : JsVal)
    (h : objGet m k = some v) : ∃ kv ∈ m, kv.2 = v := by
  induction m with
  | nil => simp [objGet] at h
  | cons kv rest ih =>
    by_cases hk : kv.1 = k
    · simp only [objGet, if_pos hk, Option.some.injEq] at h
      exact ⟨kv, List.mem_cons_self kv rest, h⟩
    · simp only [objGet, if_neg hk] at h
      obtain ⟨w, hw, h2⟩ := ih h
      exact ⟨w, List.mem_cons_of_mem kv hw, h2⟩

/-- Looking a truthy `getAlias` result up again always succeeds truthily: the
result is either a value stored in the map or the probe itself. -/
theorem getAlias_truthy_relookup (m : List (String × JsVal)) (s v : JsVal)
    (h : getAlias m s = some v) (hv : jsTruthy v = true) :
    jsTruthyO (getAlias m v) = true := by
  have hmem_case : (∃ kv ∈ m, kv.2 = v) → jsTruthyO (getAlias m v) = true := by
    rintro ⟨kv, hkv, hkv2⟩
    have hany : m.any (fun kv => JsVal.beq kv.2 v) = true :=
      List.any_eq_true.mpr ⟨kv, hkv, by rw [hkv2]; exact JsVal.beq_refl v⟩
    rw [getAlias_eq]
    cases hog : objGet m (jsToString v) with
    | none => simp [hany, jsTruthyO, hv]
    | some u =>
      by_cases hu : jsTruthy u = true
      · simp [hu, jsTruthyO]
      · simp [hu, hany, jsTruthyO, hv]
  rw [getAlias_eq] at h
  cases hog : objGet m (jsToString s) with
  | none =>
    simp only [hog] at h
    by_cases hany : m.any (fun kv => JsVal.beq kv.2 s) = true
    · rw [if_pos hany] at h
      injection h with h'
      subst h'
      rw [getAlias_eq]
      simp only [hog]
      rw [if_pos hany]
      simpa [jsTruthyO] using hv
    · rw [if_neg hany] at h
      exact absurd h (by simp)
  | some u =>
    simp only [hog] at h
    by_cases hu : jsTruthy u = true
    · rw [if_pos hu] at h
      injection h with h'
      subst h'
      exact hmem_case (objGet_mem m (jsToString s) u hog)
    · rw [if_neg hu] at h
      by_cases hany : m.any (fun kv => JsVal.beq kv.2 s) = true
      · rw [if_pos hany] at h
        injection h with h'
        subst h'
        rw [getAlias_eq]
        simp only [hog]
        rw [if_neg hu, if_pos hany]
        simpa [jsTruthyO] using hv
      · rw [if_neg hany] at h
        exact absurd h (by simp)

theorem invoke_succ (fuel : Nat) (c : Client) (flo : JsVal)
    (data : Option (List (String × JsVal))) (force : Bool) (ts : String) (tr : Transport)
    (pa : JsonParse) :
    invoke (fuel + 1) c flo data force ts tr pa =
      (let a0 := getAlias (c.floMap.getD []) flo
       let aliasV := if !jsTruthyO a0 && force then some flo else a0
       if jsTruthyO aliasV then
         let aliasStr := jsToString (aliasV.getD .null)
         let options : Route := ⟨replaceFirst routesInvoke.path ":id" aliasStr, routesInvoke.method⟩
         let mr := makeRequest c.account options data ts tr pa
         ⟨c, mr.result, mr.sent.toList, 0, some aliasStr⟩
       else
         let f := flosCall c true ts tr pa
         match f.result with
         | .error e => ⟨f.client, .err e, f.sent.toList, 1, none⟩
         | .ok _ =>
           let a1 := getAlias (f.client.floMap.getD []) flo
           if jsTruthyO a1 then
             let inner := invoke fuel f.client (a1.getD .null) data false ts tr pa
             ⟨inner.client, inner.result, f.sent.toList ++ inner.requests, 1 + inner.refreshes,
               inner.aliasUsed⟩
           else ⟨f.client, .err (.errorObj "Flo not found"), f.sent.toList, 1, none⟩) := rfl

theorem invoke_one (c : Client) (flo : JsVal)
    (data : Option (List (String × JsVal))) (force : Bool) (ts : String) (tr : Transport)
    (pa : JsonParse) :
    invoke 1 c flo data force ts tr pa =
      (let a0 := getAlias (c.floMap.getD []) flo
       let aliasV := if !jsTruthyO a0 && force then some flo else a0
       if jsTruthyO aliasV then
         let aliasStr := jsToString (aliasV.getD .null)
         let options : Route := ⟨replaceFirst routesInvoke.path ":id" aliasStr, routesInvoke.method⟩
         let mr := makeRequest c.account options data ts tr pa
         ⟨c, mr.result, mr.sent.toList, 0, some aliasStr⟩
       else
         let f := flosCall c true ts tr pa
         match f.result with
         | .error e => ⟨f.client, .err e, f.sent.toList, 1, none⟩
         | .ok _ =>
           let a1 := getAlias (f.client.floMap.getD []) flo
           if jsTruthyO a1 then
             let inner := invoke 0 f.client (a1.getD .null) data false ts tr pa
             ⟨inner.client, inner.result, f.sent.toList ++ inner.requests, 1 + inner.refreshes,
               inner.aliasUsed⟩
           else ⟨f.client, .err (.errorObj "Flo not found"), f.sent.toList, 1, none⟩) := rfl

/-- When the (possibly force-substituted) alias is truthy, `invoke` dispatches
immediately and its outcome does not depend on the recursion fuel. -/
theorem invoke_dispatch_indep (fuel : Nat) (c : Client) (flo : JsVal)
    (data : Option (List (String × JsVal))) (force : Bool) (ts : String) (tr : Transport)
    (pa : JsonParse)
    (h : jsTruthyO (if !jsTruthyO (getAlias (c.floMap.getD []) flo) && force then some flo
                    else getAlias (c.floMap.getD []) flo) = true) :
    invoke (fuel + 1) c flo data force ts tr pa = invoke 1 c flo data force ts tr pa := by
  rw [invoke_succ, invoke_one]
  simp only [h, if_true]

/-- Unfolding of `invoke` when the cache does not resolve the flo and no force
flag is given: the refresh branch runs. -/
theorem invoke_miss (fuel : Nat) (c : Client) (flo : JsVal)
    (data : Option (List (String × JsVal))) (ts : String) (tr : Transport) (pa : JsonParse)
    (h : jsTruthyO (getAlias (c.floMap.getD []) flo) = false) :
    invoke (fuel + 1) c flo data false ts tr pa =
      (let f := flosCall c true ts tr pa
       match f.result with
       | .error e => ⟨f.client, .err e, f.sent.toList, 1, none⟩
       | .ok _ =>
         let a1 := getAlias (f.client.floMap.getD []) flo
         if jsTruthyO a1 then
           let inner := invoke fuel f.client (a1.getD .null) data false ts tr pa
           ⟨inner.client, inner.result, f.sent.toList ++ inner.requests, 1 + inner.refreshes,
             inner.aliasUsed⟩
         else ⟨f.client, .err (.errorObj "Flo not found"), f.sent.toList, 1, none⟩) := by
  rw [invoke_succ]
  simp [h]

/-! ### Claim theorems -/

/-- C1: for every secret, verb, path, timestamp, and body (absent or an
object), the signer returns the hex-encoded HMAC-SHA256, keyed by the secret,
of `lowercase(verb) ++ ":" ++ path ++ ":" ++ timestamp` concatenated directly
with the serialized body (empty string when absent, JSON text when an
object). -/
theorem signData_matches_spec (secret verb p ts : String)
    (body : Option (List (String × JsVal))) :
    signData secret (bodyValOf body) verb p ts
      = hmacSha256Hex secret (specSignerMessage verb p ts body) := by
  cases body with
  | none =>
    simp [signData, bodyValOf, serializeBody, specSignerMessage, specSerializeBody,
      intercalate3, String.append_empty, String.append_assoc]
  | some o =>
    simp [signData, bodyValOf, serializeBody, specSignerMessage, specSerializeBody,
      intercalate3, String.append_assoc]

/-- C2: for a workflow name the current cache does not resolve,
`invoke(name, payload, force := false)` performs exactly one cache refresh;
a failing refresh propagates its error verbatim, a refresh that still leaves
the name unresolved yields the `Error("Flo not found")`, no second refresh is
ever attempted, and the computation is independent of any extra recursion
fuel (it never loops). -/
theorem invoke_cache_miss_single_refresh (c : Client) (name : String)
    (data : Option (List (String × JsVal))) (ts : String) (tr : Transport) (pa : JsonParse)
    (n : Nat)
    (h : jsTruthyO (getAlias (c.floMap.getD []) (JsVal.str name)) = false) :
    (invoke 2 c (.str name) data false ts tr pa).refreshes = 1
    ∧ invoke (n + 2) c (.str name) data false ts tr pa
        = invoke 2 c (.str name) data false ts tr pa
    ∧ (invoke 2 c (.str name) data false ts tr pa).result =
        (match (flosCall c true ts tr pa).result with
         | .error e => .err e
         | .ok _ =>
           if jsTruthyO (getAlias ((flosCall c true ts tr pa).client.floMap.getD []) (.str name))
           then (invoke 1 (flosCall c true ts tr pa).client
                  ((getAlias ((flosCall c true ts tr pa).client.floMap.getD [])
                     (.str name)).getD .null) data false ts tr pa).result
           else .err (.errorObj "Flo not found")) := by
  have e1 : invoke 2 c (.str name) data false ts tr pa
      = invoke (1 + 1) c (.str name) data false ts tr pa := rfl
  have e2 : invoke (n + 2) c (.str name) data false ts tr pa
      = invoke ((n + 1) + 1) c (.str name) data false ts tr pa := rfl
  rw [e1, e2, invoke_miss 1 c _ data ts tr pa h, invoke_miss (n + 1) c _ data ts tr pa h]
  cases hf : (flosCall c true ts tr pa).result with
  | error e => simp [hf]
  | ok l =>
    simp only [hf]
    by_cases ha1 : jsTruthyO
        (getAlias ((flosCall c true ts tr pa).client.floMap.getD []) (JsVal.str name)) = true
    · obtain ⟨w, hw, hwt⟩ : ∃ w,
          getAlias ((flosCall c true ts tr pa).client.floMap.getD []) (JsVal.str name) = some w
          ∧ jsTruthy w = true := by
        cases hga : getAlias ((flosCall c true ts tr pa).client.floMap.getD [])
            (JsVal.str name) with
        | none => rw [hga] at ha1; simp [jsTruthyO] at ha1
        | some w => exact ⟨w, rfl, by rw [hga] at ha1; simpa [jsTruthyO] using ha1⟩
      have hrelook := getAlias_truthy_relookup _ _ _ hw hwt
      have hdisp : jsTruthyO
          (if !jsTruthyO (getAlias (((flosCall c true ts tr pa).client).floMap.getD []) w)
              && false
           then some w
           else getAlias (((flosCall c true ts tr pa).client).floMap.getD []) w) = true := by
        simpa using hrelook
      have hindep := invoke_dispatch_indep n (flosCall c true ts tr pa).client w data false
        ts tr pa hdisp
      simp only [ha1, if_true, hw, Option.getD_some]
      rw [hindep]
      have hz : jsTruthyO (some w) = true := by simpa [jsTruthyO] using hwt
      have hr0 : (invoke 1 (flosCall c true ts tr pa).client w data false ts tr pa).refreshes
          = 0 := by
        rw [invoke_one]
        simp only [hdisp, if_true]
      simp [hz, hr0]
    · simp only [ha1, if_false]
      simp [ha1]

/-- Witness for C2 at a concrete input: empty cache, name `"missing"`, a
transport returning the empty flo list. -/
theorem invoke_cache_miss_single_refresh_witness :
    jsTruthyO (getAlias ((⟨⟨some "k", some "s"⟩, none⟩ : Client).floMap.getD [])
        (JsVal.str "missing")) = false
    ∧ ((invoke 2 ⟨⟨some "k", some "s"⟩, none⟩ (.str "missing") none false "T" trEmptyList
          paEmptyArr).refreshes = 1
      ∧ invoke (3 + 2) ⟨⟨some "k", some "s"⟩, none⟩ (.str "missing") none false "T"
          trEmptyList paEmptyArr
          = invoke 2 ⟨⟨some "k", some "s"⟩, none⟩ (.str "missing") none false "T"
            trEmptyList paEmptyArr
      ∧ (invoke 2 ⟨⟨some "k", some "s"⟩, none⟩ (.str "missing") none false "T" trEmptyList
            paEmptyArr).result =
          (match (flosCall ⟨⟨some "k", some "s"⟩, none⟩ true "T" trEmptyList
              paEmptyArr).result with
           | .error e => .err e
           | .ok _ =>
             if jsTruthyO (getAlias ((flosCall ⟨⟨some "k", some "s"⟩, none⟩ true "T"
                  trEmptyList paEmptyArr).client.floMap.getD []) (.str "missing"))
             then (invoke 1 (flosCall ⟨⟨some "k", some "s"⟩, none⟩ true "T" trEmptyList
                    paEmptyArr).client
                    ((getAlias ((flosCall ⟨⟨some "k", some "s"⟩, none⟩ true "T" trEmptyList
                       paEmptyArr).client.floMap.getD []) (.str "missing")).getD .null)
                    none false "T" trEmptyList paEmptyArr).result
             else .err (.errorObj "Flo not found"))) :=
  ⟨rfl, invoke_cache_miss_single_refresh ⟨⟨some "k", some "s"⟩, none⟩ "missing" none "T"
    trEmptyList paEmptyArr 3 rfl⟩

/-- C3 counterexample: with `force := true` and the name `"billing"` cached
with alias `"az1"`, the dispatch substitutes the cached alias `"az1"` — not
the caller-supplied name verbatim — into the invoke route path. -/
theorem invoke_force_cached_alias_cex :
    (invoke 1 ⟨⟨some "k", some "s"⟩, some [("billing", JsVal.str "az1")]⟩ (.str "billing") none
      true "T" trFail paNone).aliasUsed = some "az1"
    ∧ (invoke 1 ⟨⟨some "k", some "s"⟩, some [("billing", JsVal.str "az1")]⟩ (.str "billing") none
      true "T" trFail paNone).requests.map (fun r => r.path) = ["/flo/az1/invoke"]
    ∧ ¬"az1" = "billing" := ⟨rfl, rfl, by decide⟩

/-- C3 (amended): for every non-empty name, `invoke(name, payload,
force := true)` performs no cache refresh; the alias substituted into the
invoke route is the cached alias when the cache resolves the name to a truthy
alias, and the caller-supplied name verbatim otherwise. -/
theorem invoke_force_no_refresh (c : Client) (name : String)
    (data : Option (List (String × JsVal))) (ts : String) (tr : Transport) (pa : JsonParse)
    (hname : name ≠ "") :
    (invoke 1 c (.str name) data true ts tr pa).refreshes = 0
    ∧ (invoke 1 c (.str name) data true ts tr pa).aliasUsed =
        some (if jsTruthyO (getAlias (c.floMap.getD []) (.str name))
              then jsToString ((getAlias (c.floMap.getD []) (.str name)).getD .null)
              else name)
    ∧ (invoke 1 c (.str name) data true ts tr pa).requests =
        (makeRequest c.account
          ⟨replaceFirst routesInvoke.path ":id"
            (if jsTruthyO (getAlias (c.floMap.getD []) (.str name))
             then jsToString ((getAlias (c.floMap.getD []) (.str name)).getD .null)
             else name), routesInvoke.method⟩ data ts tr pa).sent.toList := by
  rw [invoke_one]
  by_cases h0 : jsTruthyO (getAlias (c.floMap.getD []) (JsVal.str name)) = true
  · simp [h0]
  · have h0' : jsTruthyO (getAlias (c.floMap.getD []) (JsVal.str name)) = false := by
      rwa [Bool.not_eq_true] at h0
    have hstr : jsTruthy (JsVal.str name) = true := by simp [jsTruthy, hname]
    simp only [h0', Bool.not_false, Bool.and_true, if_true, Bool.false_eq_true, if_false]
    simp [jsTruthyO, hstr, jsToString]

/-- Witness for the amended C3 at a concrete input: empty cache, non-empty
name `"billing"`. -/
theorem invoke_force_no_refresh_witness :
    "billing" ≠ ""
    ∧ ((invoke 1 ⟨⟨some "k", some "s"⟩, none⟩ (.str "billing") none true "T" trFail
          paNone).refreshes = 0
      ∧ (invoke 1 ⟨⟨some "k", some "s"⟩, none⟩ (.str "billing") none true "T" trFail
          paNone).aliasUsed =
          some (if jsTruthyO (getAlias ((⟨⟨some "k", some "s"⟩, none⟩ : Client).floMap.getD [])
                  (.str "billing"))
                then jsToString ((getAlias ((⟨⟨some "k", some "s"⟩, none⟩ :
                  Client).floMap.getD []) (.str "billing")).getD .null)
                else "billing")
      ∧ (invoke 1 ⟨⟨some "k", some "s"⟩, none⟩ (.str "billing") none true "T" trFail
          paNone).requests =
          (makeRequest (⟨⟨some "k", some "s"⟩, none⟩ : Client).account
            ⟨replaceFirst routesInvoke.path ":id"
              (if jsTruthyO (getAlias ((⟨⟨some "k", some "s"⟩, none⟩ : Client).floMap.getD [])
                  (.str "billing"))
               then jsToString ((getAlias ((⟨⟨some "k", some "s"⟩, none⟩ :
                 Client).floMap.getD []) (.str "billing")).getD .null)
               else "billing"), routesInvoke.method⟩ none "T" trFail paNone).sent.toList) :=
  ⟨by decide, invoke_force_no_refresh ⟨⟨some "k", some "s"⟩, none⟩ "billing" none "T" trFail
    paNone (by decide)⟩

/-- C4 counterexample: with both credentials absent but a populated cache,
`flos(false)` succeeds from the cache without any error and without touching
the transport — so not every operation fails with `MissingCredentials`. -/
theorem flos_cached_no_creds_cex :
    (flosCall ⟨⟨none, none⟩, some [("a", JsVal.str "b")]⟩ false "T" trFail paNone).result
        = .ok [JsVal.str "a"]
    ∧ (flosCall ⟨⟨none, none⟩, some [("a", JsVal.str "b")]⟩ false "T" trFail paNone).sent = none
    ∧ ¬(flosCall ⟨⟨none, none⟩, some [("a", JsVal.str "b")]⟩ false "T" trFail paNone).result
        = .error (.errorObj "Account information not found") := by
  refine ⟨rfl, rfl, ?_⟩
  intro hcontra
  have hc : (Except.ok [JsVal.str "a"] : Except ErrVal (List JsVal))
      = .error (.errorObj "Account information not found") :=
    (rfl : (flosCall ⟨⟨none, none⟩, some [("a", JsVal.str "b")]⟩ false "T" trFail
      paNone).result = .ok [JsVal.str "a"]).symm.trans hcontra
  exact Except.noConfusion hc

/-- C4 (amended): when either credential is absent or empty, `invoke` always
fails immediately with `Error("Account information not found")` and never
calls the transport, and so does `flos` whenever it must refresh (cache
unpopulated, or a refresh forced); `flos` with a populated cache and no forced
refresh serves the cached names without error and without a transport call. -/
theorem missing_credentials_behaviour (k sec : Option String)
    (fm : Option (List (String × JsVal))) (m : List (String × JsVal)) (flo : JsVal)
    (data : Option (List (String × JsVal))) (force refresh : Bool) (ts : String)
    (tr : Transport) (pa : JsonParse)
    (hbad : (truthyOpt k && truthyOpt sec) = false) :
    (invoke 2 ⟨⟨k, sec⟩, fm⟩ flo data force ts tr pa).result
        = .err (.errorObj "Account information not found")
    ∧ (invoke 2 ⟨⟨k, sec⟩, fm⟩ flo data force ts tr pa).requests = []
    ∧ (flosCall ⟨⟨k, sec⟩, fm⟩ true ts tr pa).result
        = .error (.errorObj "Account information not found")
    ∧ (flosCall ⟨⟨k, sec⟩, fm⟩ true ts tr pa).sent = none
    ∧ (flosCall ⟨⟨k, sec⟩, none⟩ refresh ts tr pa).result
        = .error (.errorObj "Account information not found")
    ∧ (flosCall ⟨⟨k, sec⟩, none⟩ refresh ts tr pa).sent = none
    ∧ (flosCall ⟨⟨k, sec⟩, some m⟩ false ts tr pa).result
        = .ok (m.map (fun kv => JsVal.str kv.1))
    ∧ (flosCall ⟨⟨k, sec⟩, some m⟩ false ts tr pa).sent = none := by
  have hmr : ∀ (o : Route) (prm : Option (List (String × JsVal))),
      makeRequest ⟨k, sec⟩ o prm ts tr pa
        = ⟨none, .err (.errorObj "Account information not found")⟩ := by
    intro o prm
    unfold makeRequest
    rw [hbad]
    rfl
  have hflosT : ∀ fm' : Option (List (String × JsVal)),
      flosCall ⟨⟨k, sec⟩, fm'⟩ true ts tr pa
        = ⟨⟨⟨k, sec⟩, fm'⟩, .error (.errorObj "Account information not found"), none⟩ := by
    intro fm'
    cases fm' <;> simp [flosCall, hmr]
  have hinv : invoke 2 ⟨⟨k, sec⟩, fm⟩ flo data force ts tr pa
      = invoke (1 + 1) ⟨⟨k, sec⟩, fm⟩ flo data force ts tr pa := rfl
  have hboth : (invoke 2 ⟨⟨k, sec⟩, fm⟩ flo data force ts tr pa).result
        = .err (.errorObj "Account information not found")
      ∧ (invoke 2 ⟨⟨k, sec⟩, fm⟩ flo data force ts tr pa).requests = [] := by
    rw [hinv, invoke_succ]
    by_cases hd : jsTruthyO
        (if !jsTruthyO (getAlias ((⟨⟨k, sec⟩, fm⟩ : Client).floMap.getD []) flo) && force
         then some flo
         else getAlias ((⟨⟨k, sec⟩, fm⟩ : Client).floMap.getD []) flo) = true
    · rw [if_pos hd]
      constructor
      · simp [hmr]
      · simp [hmr]
    · rw [if_neg hd]
      rw [hflosT fm]
      constructor <;> simp
  refine ⟨hboth.1, hboth.2, ?_, ?_, ?_, ?_, ?_, ?_⟩
  · rw [hflosT]
  · rw [hflosT]
  · cases refresh with
    | false => simp [flosCall, hmr]
    | true => rw [hflosT]
  · cases refresh with
    | false => simp [flosCall, hmr]
    | true => rw [hflosT]
  · simp [flosCall]
  · simp [flosCall]

/-- Witness for the amended C4 at a concrete input: both credentials absent. -/
theorem missing_credentials_behaviour_witness :
    (truthyOpt none && truthyOpt none) = false
    ∧ ((invoke 2 ⟨⟨none, none⟩, none⟩ (.str "x") none false "T" trFail paNone).result
          = .err (.errorObj "Account information not found")
      ∧ (invoke 2 ⟨⟨none, none⟩, none⟩ (.str "x") none false "T" trFail paNone).requests = []
      ∧ (flosCall ⟨⟨none, none⟩, none⟩ true "T" trFail paNone).result
          = .error (.errorObj "Account information not found")
      ∧ (flosCall ⟨⟨none, none⟩, none⟩ true "T" trFail paNone).sent = none
      ∧ (flosCall ⟨⟨none, none⟩, none⟩ false "T" trFail paNone).result
          = .error (.errorObj "Account information not found")
      ∧ (flosCall ⟨⟨none, none⟩, none⟩ false "T" trFail paNone).sent = none
      ∧ (flosCall ⟨⟨none, none⟩, some [("a", JsVal.str "b")]⟩ false "T" trFail paNone).result
          = .ok ([("a", JsVal.str "b")].map (fun kv => JsVal.str kv.1))
      ∧ (flosCall ⟨⟨none, none⟩, some [("a", JsVal.str "b")]⟩ false "T" trFail
          paNone).sent = none) :=
  ⟨rfl, missing_credentials_behaviour none none none [("a", JsVal.str "b")] (.str "x") none
    false false "T" trFail paNone rfl⟩

/-- C5: the GET query-append loop of `makeRequest`, evaluated at the failing
input `params = {"a": "b"}` on the `/account/flos` route: the code appends
`?b=a` (value in the key position and key in the value position, because
underscore's `each` passes `(value, key)`) and hands the raw params object —
not the empty string — to the transport as the body. -/
theorem get_query_swap_code_bug :
    ((makeRequest ⟨some "k", some "s"⟩ routesFlos (some [("a", JsVal.str "b")]) "T" trFail
        paNone).sent.map (fun r => r.path)) = some "/account/flos?b=a"
    ∧ ((makeRequest ⟨some "k", some "s"⟩ routesFlos (some [("a", JsVal.str "b")]) "T" trFail
        paNone).sent.map (fun r => r.body)) = some (.vobj [("a", JsVal.str "b")]) := ⟨rfl, rfl⟩

/-- C6: for every GET request built with valid credentials, the `x-api-hash`
header is the signature over the route path as it was before any query
parameters were appended, while the transmitted path carries the appended
query string. -/
theorem get_hash_signed_pre_query (k sec p ts : String)
    (params : Option (List (String × JsVal))) (tr : Transport) (pa : JsonParse)
    (hk : k ≠ "") (hs : sec ≠ "") :
    ((makeRequest ⟨some k, some sec⟩ ⟨p, .GET⟩ params ts tr pa).sent.map (fun r => r.xApiHash))
        = some (signData sec (nullifyParams params) "GET" p ts)
    ∧ ((makeRequest ⟨some k, some sec⟩ ⟨p, .GET⟩ params ts tr pa).sent.map (fun r => r.path))
        = some (match nullifyParams params with
                | .vobj fields => appendQuery fields p
                | _ => p) := by
  have hcred : (truthyOpt (some k) && truthyOpt (some sec)) = true := by
    simp [truthyOpt, hk, hs]
  unfold makeRequest
  rw [hcred]
  cases hpv : nullifyParams params <;> simp [hpv, Method.str]

/-- Witness for C6 at a concrete input. -/
theorem get_hash_signed_pre_query_witness :
    "k" ≠ "" ∧ "s" ≠ ""
    ∧ (((makeRequest ⟨some "k", some "s"⟩ ⟨"/account/flos", .GET⟩
          (some [("a", JsVal.str "b")]) "T" trFail paNone).sent.map (fun r => r.xApiHash))
        = some (signData "s" (nullifyParams (some [("a", JsVal.str "b")])) "GET"
            "/account/flos" "T")
      ∧ (((makeRequest ⟨some "k", some "s"⟩ ⟨"/account/flos", .GET⟩
          (some [("a", JsVal.str "b")]) "T" trFail paNone).sent.map (fun r => r.path))
        = some (match nullifyParams (some [("a", JsVal.str "b")]) with
                | .vobj fields => appendQuery fields "/account/flos"
                | _ => "/account/flos"))) :=
  ⟨by decide, by decide,
    get_hash_signed_pre_query "k" "s" "/account/flos" "T" (some [("a", JsVal.str "b")]) trFail
      paNone (by decide) (by decide)⟩

/-- C7: `makeRequest`, evaluated at the failing input of a POST with absent
params: the signature covers the empty-string serialization, but the
transmitted body is `JSON.stringify("")`, i.e. the two-character text `""`,
with `Content-Length` 2 — the signed serialization and the wire body
disagree. -/
theorem post_empty_body_code_bug :
    ((makeRequest ⟨some "k", some "s"⟩ ⟨"/flo/az1/invoke", .POST⟩ none "T" trFail paNone).sent.map
        (fun r => r.body)) = some (.vstr "\"\"")
    ∧ ((makeRequest ⟨some "k", some "s"⟩ ⟨"/flo/az1/invoke", .POST⟩ none "T" trFail
        paNone).sent.map (fun r => r.contentLength)) = some (some 2)
    ∧ serializeBody (nullifyParams none) = ""
    ∧ ((makeRequest ⟨some "k", some "s"⟩ ⟨"/flo/az1/invoke", .POST⟩ none "T" trFail
        paNone).sent.map (fun r => r.xApiHash))
      = some (signData "s" (.vstr "") "POST" "/flo/az1/invoke" "T") :=
  ⟨rfl, rfl, rfl, rfl⟩

/-- C8 counterexample: in the mapping `{"a": ""}` the string `"a"` occurs as a
name key (mapping to the empty alias), yet the lookup reports the workflow
absent instead of returning the mapped alias. -/
theorem getAlias_falsy_key_cex :
    getAlias [("a", JsVal.str "")] (.str "a") = none
    ∧ objGet [("a", JsVal.str "")] "a" = some (JsVal.str "") := ⟨rfl, rfl⟩

/-- C8 (amended): for every cache mapping and string `s`, the lookup returns
the mapped alias whenever `s` occurs as a name key with a JS-truthy alias;
otherwise it returns `s` itself whenever some stored alias value strictly
equals `s`; otherwise it reports the workflow absent. -/
theorem getAlias_amended_contract (m : List (String × JsVal)) (s : String) :
    getAlias m (.str s) = lookupAmended m s := by
  rw [getAlias_eq]
  rfl

/-- C9 counterexample: two input tuples that differ (in path and timestamp)
but assemble to the same signed message produce identical signatures, so the
signer is not sensitive to every individual input. -/
theorem signData_collision_cex :
    ¬("p:q", "t") = ("p", "q:t")
    ∧ signData "secret" .vnull "POST" "p:q" "t" = signData "secret" .vnull "POST" "p" "q:t" :=
  ⟨by decide, congrArg (hmacSha256Hex "secret") (by decide)⟩

/-- C9 (amended): the signer is deterministic — identical inputs give
byte-identical output — and depends on verb, path, timestamp and body only
through the assembled message: two tuples assembling to the same message
under the same secret produce identical output (hence tuples that differ can
collide). -/
theorem signData_deterministic_message_sensitive (secret v1 p1 t1 v2 p2 t2 : String)
    (b1 b2 : BodyVal)
    (h : String.intercalate ":" [jsToLowerCase v1, p1, t1] ++ serializeBody b1
       = String.intercalate ":" [jsToLowerCase v2, p2, t2] ++ serializeBody b2) :
    signData secret b1 v1 p1 t1 = signData secret b1 v1 p1 t1
    ∧ signData secret b1 v1 p1 t1 = signData secret b2 v2 p2 t2 :=
  ⟨rfl, congrArg (hmacSha256Hex secret) h⟩

/-- Witness for the amended C9 at the concrete colliding input. -/
theorem signData_deterministic_message_sensitive_witness :
    String.intercalate ":" [jsToLowerCase "POST", "p:q", "t"] ++ serializeBody .vnull
      = String.intercalate ":" [jsToLowerCase "POST", "p", "q:t"] ++ serializeBody .vnull
    ∧ (signData "secret" .vnull "POST" "p:q" "t" = signData "secret" .vnull "POST" "p:q" "t"
      ∧ signData "secret" .vnull "POST" "p:q" "t"
          = signData "secret" .vnull "POST" "p" "q:t") :=
  ⟨by decide, signData_deterministic_message_sensitive "secret" "POST" "p:q" "t" "POST" "p"
    "q:t" .vnull .vnull (by decide)⟩

/-- C10: when the transport reports success but the body is not valid JSON,
the request machinery — and therefore both `flos` and a cache-hit `invoke` —
fails the call by handing the completion callback the raw unparsed body
string itself as the error value (not an `Error` object and not a parsed
result). -/
theorem unparseable_body_raw_error (k sec raw ts : String) (options : Route)
    (params : Option (List (String × JsVal))) (pa : JsonParse) (c : Client) (name : String)
    (data : Option (List (String × JsVal)))
    (hk : k ≠ "") (hs : sec ≠ "") (hpa : pa raw = none)
    (hacct : c.account = ⟨some k, some sec⟩)
    (ha : jsTruthyO (getAlias (c.floMap.getD []) (.str name)) = true) :
    (makeRequest ⟨some k, some sec⟩ options params ts (fun _ => .ok raw) pa).result
        = .err (.strVal raw)
    ∧ (flosCall c true ts (fun _ => .ok raw) pa).result = .error (.strVal raw)
    ∧ (invoke 1 c (.str name) data false ts (fun _ => .ok raw) pa).result
        = .err (.strVal raw) := by
  have hmr : ∀ (o : Route) (prm : Option (List (String × JsVal))),
      (makeRequest ⟨some k, some sec⟩ o prm ts (fun _ => .ok raw) pa).result
        = .err (.strVal raw) := by
    intro o prm
    have hcred : (truthyOpt (some k) && truthyOpt (some sec)) = true := by
      simp [truthyOpt, hk, hs]
    unfold makeRequest
    rw [hcred]
    simp [hpa]
  refine ⟨hmr _ _, ?_, ?_⟩
  · cases hfm : c.floMap <;> simp [flosCall, hfm, hacct, hmr]
  · rw [invoke_one]
    simp [ha, hacct, hmr]

/-- Witness for C10 at a concrete input: cached flo `"f"` with alias `"az"`,
a transport answering `"oops"`, a parser rejecting it. -/
theorem unparseable_body_raw_error_witness :
    "k" ≠ "" ∧ "s" ≠ "" ∧ paNone "oops" = none
    ∧ (⟨⟨some "k", some "s"⟩, some [("f", JsVal.str "az")]⟩ : Client).account
        = ⟨some "k", some "s"⟩
    ∧ jsTruthyO (getAlias ((⟨⟨some "k", some "s"⟩, some [("f", JsVal.str "az")]⟩ :
        Client).floMap.getD []) (.str "f")) = true
    ∧ ((makeRequest ⟨some "k", some "s"⟩ routesFlos none "T" (fun _ => .ok "oops")
          paNone).result = .err (.strVal "oops")
      ∧ (flosCall ⟨⟨some "k", some "s"⟩, some [("f", JsVal.str "az")]⟩ true "T"
          (fun _ => .ok "oops") paNone).result = .error (.strVal "oops")
      ∧ (invoke 1 ⟨⟨some "k", some "s"⟩, some [("f", JsVal.str "az")]⟩ (.str "f") none false
          "T" (fun _ => .ok "oops") paNone).result = .err (.strVal "oops")) :=
  ⟨by decide, by decide, rfl, rfl, rfl,
    unparseable_body_raw_error "k" "s" "oops" "T" routesFlos none paNone
      ⟨⟨some "k", some "s"⟩, some [("f", JsVal.str "az")]⟩ "f" none (by decide) (by decide)
      rfl rfl rfl⟩

end Azuqua
